import Mathlib

/-
Verification of the history-list rendering core
(crates/atuin/src/command/client/search/history_list.rs).

Strings are modelled as lists of characters; one character occupies one
display cell (the simplification documented in the spec). Machine integers
(usize, u16, i64) are modelled as Nat / Int. Rust subtraction on unsigned
integers panics on underflow; where the source subtracts without a guard we
either prove the subtraction in range or provide a checked variant in which
a panic is modelled as none.
-/

/-! ## Basic string helpers -/

/-- Right-aligned formatting: left-pad with spaces up to width w
    (Rust format with a minimum width and right alignment). The pad amount
    uses truncated subtraction, matching the formatter which never shortens. -/
def padLeft (w : Nat) (s : List Char) : List Char :=
  List.replicate (w - s.length) ' ' ++ s

/-- Left-aligned formatting: right-pad with spaces up to width w. -/
def padRight (w : Nat) (s : List Char) : List Char :=
  s ++ List.replicate (w - s.length) ' '

/-- Rust char.is_ascii_whitespace: space, tab, newline, form feed, carriage return. -/
def isAsciiWs (c : Char) : Bool :=
  c == ' ' || c == '\t' || c == '\n' || c == '\x0c' || c == '\r'

/-- Helper for splitAsciiWs, carrying the current (reversed) token. -/
def splitAsciiWsAux : List Char → List Char → List (List Char)
  | [], cur => if cur.isEmpty then [] else [cur.reverse]
  | c :: cs, cur =>
    if isAsciiWs c then
      if cur.isEmpty then splitAsciiWsAux cs []
      else cur.reverse :: splitAsciiWsAux cs []
    else splitAsciiWsAux cs (c :: cur)

/-- Rust str.split_ascii_whitespace: split on runs of ASCII whitespace,
    discarding empty tokens. -/
def splitAsciiWs (s : List Char) : List (List Char) :=
  splitAsciiWsAux s []

/-- The itertools join of tokens with a single space, as used for the
    normalized command handed to the highlighter. -/
def normalizedCmd : List (List Char) → List Char
  | [] => []
  | [t] => t
  | t :: ts => t ++ ' ' :: normalizedCmd ts

/-! ## ViewportScroller: HistoryList.get_items_bounds -/

/-- HistoryList.get_items_bounds translated from the source. The first
    subtraction models saturating_sub(1); the subtractions len - selected and
    selected + maxScrollSpace - height are unguarded usize subtractions in the
    source (they panic on underflow); here Nat subtraction truncates, and the
    checked variant below models the panic. -/
def get_items_bounds (len selected offset height : Nat) : Nat × Nat :=
  let offset := min offset (len - 1)
  let maxScrollSpace := min height (min 10 (len - selected))
  if offset + height < selected + maxScrollSpace then
    (selected + maxScrollSpace - height, selected + maxScrollSpace)
  else if selected < offset then
    (selected, selected + height)
  else
    (offset, offset + height)

/-- get_items_bounds with each unguarded usize subtraction checked: a result
    of none models a Rust panic on underflow. -/
def get_items_bounds_checked (len selected offset height : Nat) : Option (Nat × Nat) :=
  let offset := min offset (len - 1)
  if selected ≤ len then
    let maxScrollSpace := min height (min 10 (len - selected))
    if offset + height < selected + maxScrollSpace then
      if height ≤ selected + maxScrollSpace then
        some (selected + maxScrollSpace - height, selected + maxScrollSpace)
      else none
    else if selected < offset then
      some (selected, selected + height)
    else
      some (offset, offset + height)
  else none

/-- Modelled from the spec words (section 4.1): clamp offset to
    min(offset, length - 1); margin = min(height, 10, length - selected);
    snap the bottom edge to selected + margin when the window would lose the
    selection, else snap the top edge to selected when it moved above, else
    keep the offset. -/
def boundsSpecPolicy (len selected offset height : Nat) : Nat × Nat :=
  let off := min offset (len - 1)
  let margin := min height (min 10 (len - selected))
  if off + height < selected + margin then
    (selected + margin - height, selected + margin)
  else if selected < off then
    (selected, selected + height)
  else
    (off, off + height)

/-- Unfolding equation for get_items_bounds with the lets expanded. -/
theorem get_items_bounds_eq (len selected offset height : Nat) :
    get_items_bounds len selected offset height =
      if min offset (len - 1) + height <
          selected + min height (min 10 (len - selected)) then
        (selected + min height (min 10 (len - selected)) - height,
         selected + min height (min 10 (len - selected)))
      else if selected < min offset (len - 1) then
        (selected, selected + height)
      else
        (min offset (len - 1), min offset (len - 1) + height) := rfl

/-- Characterisation of the window returned by get_items_bounds, shared by
    the claims below: the start never exceeds the selection, stays inside the
    list, the window has exactly the viewport height, contains the selection
    when the height is positive, and its end is at least selected + margin. -/
theorem bounds_char (len selected offset height : Nat) (hs : selected < len) :
    ∃ s e, get_items_bounds len selected offset height = (s, e) ∧
      s ≤ selected ∧ s < len ∧ e = s + height ∧
      (0 < height → selected < e) ∧
      selected + min height (min 10 (len - selected)) ≤ e := by
  rw [get_items_bounds_eq]
  split_ifs with h1 h2
  · exact ⟨_, _, rfl, by omega, by omega, by omega, by omega, by omega⟩
  · exact ⟨_, _, rfl, by omega, by omega, by omega, by omega, by omega⟩
  · exact ⟨_, _, rfl, by omega, by omega, by omega, by omega, by omega⟩

/-- Recomputing the bounds from the offset they produced returns the same
    window (the scroll policy is a projection). -/
theorem bounds_idem (len selected offset height : Nat) (hs : selected < len) :
    get_items_bounds len selected (get_items_bounds len selected offset height).1 height =
      get_items_bounds len selected offset height := by
  obtain ⟨s, e, hb, hle, hlen, hadd, _, hm⟩ := bounds_char len selected offset height hs
  rw [hb]
  rw [get_items_bounds_eq]
  split_ifs with h1 h2
  · exact absurd h1 (by omega)
  · exact absurd h2 (by omega)
  · rw [Prod.mk.injEq]
    constructor <;> omega

/-- C1: the claim fails as stated. With length 1, selected 0, prior offset 0
    and height 2 (so height is positive and selected is a valid index), the
    returned window end is 2, which exceeds the list length 1. -/
theorem C1_counterexample :
    0 < 2 ∧ 0 < 1 ∧ ¬ ((get_items_bounds 1 0 0 2).2 ≤ 1) := by decide

/-- C1 amended: for height positive and selected a valid index, the window
    satisfies start ≤ selected < end, end - start ≤ height and 0 ≤ start, but
    the end is only bounded by length - 1 + height, not by length. -/
theorem C1_window_bounds (len selected offset height : Nat)
    (hh : 0 < height) (hs : selected < len) :
    (get_items_bounds len selected offset height).1 ≤ selected ∧
    selected < (get_items_bounds len selected offset height).2 ∧
    (get_items_bounds len selected offset height).2 -
      (get_items_bounds len selected offset height).1 ≤ height ∧
    0 ≤ (get_items_bounds len selected offset height).1 ∧
    (get_items_bounds len selected offset height).2 ≤ len - 1 + height := by
  obtain ⟨s, e, hb, hle, hlen, hadd, hsel, hm⟩ := bounds_char len selected offset height hs
  rw [hb]
  exact ⟨hle, hsel hh, by omega, by omega, by omega⟩

/-- C1 witness: length 20, selected 19, offset 0, height 5 gives the window
    (15, 20), inside all amended bounds. -/
theorem C1_window_bounds_witness :
    0 < 5 ∧ 19 < 20 ∧
    ((get_items_bounds 20 19 0 5).1 ≤ 19 ∧
     19 < (get_items_bounds 20 19 0 5).2 ∧
     (get_items_bounds 20 19 0 5).2 - (get_items_bounds 20 19 0 5).1 ≤ 5 ∧
     0 ≤ (get_items_bounds 20 19 0 5).1 ∧
     (get_items_bounds 20 19 0 5).2 ≤ 20 - 1 + 5) :=
  ⟨by decide, by decide, C1_window_bounds 20 19 0 5 (by decide) (by decide)⟩

/-- C2: for any valid selection, get_items_bounds implements exactly the
    stated lazy-window policy; moreover none of its unchecked subtractions
    panics (the checked variant returns some of the spec policy's window). -/
theorem C2_bounds_match_policy (len selected offset height : Nat)
    (hs : selected < len) :
    get_items_bounds_checked len selected offset height =
      some (boundsSpecPolicy len selected offset height) ∧
    get_items_bounds len selected offset height =
      boundsSpecPolicy len selected offset height := by
  constructor
  · simp only [get_items_bounds_checked, boundsSpecPolicy]
    split_ifs with h1 h2 h3 <;> first | rfl | (exfalso; omega)
  · rfl

/-- C2 witness: scenario A from the spec, length 20, selected 19, height 5,
    offset 0: the window snaps to (15, 20). -/
theorem C2_bounds_match_policy_witness :
    19 < 20 ∧
    (get_items_bounds_checked 20 19 0 5 = some (boundsSpecPolicy 20 19 0 5) ∧
     get_items_bounds 20 19 0 5 = boundsSpecPolicy 20 19 0 5) ∧
    boundsSpecPolicy 20 19 0 5 = (15, 20) :=
  ⟨by decide, C2_bounds_match_policy 20 19 0 5 (by decide), by decide⟩

/-! ## Directory / Host / User column display strings -/

/-- DrawState.directory display text: truncate from the left with a leading
    ellipsis when the character count exceeds the width and the width is at
    least 4, else left-align and right-pad. -/
def directoryDisplay (cwd : List Char) (w : Nat) : List Char :=
  if cwd.length > w ∧ 4 ≤ w then
    '.' :: '.' :: '.' :: cwd.drop (cwd.length - (w - 3))
  else
    padRight w cwd

/-- The host part of the stored compound hostname: the segment before the
    first colon (split(COLON).next(), which always yields a first segment). -/
def hostSegment (hostname : List Char) : List Char :=
  hostname.takeWhile (fun c => c ≠ ':')

/-- The user part of the stored compound hostname: the segment between the
    first and second colon (split(COLON).nth(1)), empty when absent. -/
def userSegment (hostname : List Char) : List Char :=
  ((hostname.dropWhile (fun c => c ≠ ':')).drop 1).takeWhile (fun c => c ≠ ':')

/-- Shared truncation of DrawState.host and DrawState.user: keep the first
    width - 4 characters (saturating) and append an ellipsis when the text is
    longer than the width and the width is at least 4, else right-pad. -/
def truncRightDisplay (s : List Char) (w : Nat) : List Char :=
  if s.length > w ∧ 4 ≤ w then
    s.take (w - 4) ++ ['.', '.', '.']
  else
    padRight w s

/-- DrawState.host display text. -/
def hostDisplay (hostname : List Char) (w : Nat) : List Char :=
  truncRightDisplay (hostSegment hostname) w

/-- DrawState.user display text. -/
def userDisplay (hostname : List Char) (w : Nat) : List Char :=
  truncRightDisplay (userSegment hostname) w

/-- Truncated host or user text has width - 1 cells, ending in the ellipsis. -/
theorem truncRight_spec (s : List Char) (w : Nat) (h4 : 4 ≤ w)
    (hl : s.length > w) :
    (truncRightDisplay s w).length = w - 1 ∧
    (truncRightDisplay s w).drop (w - 4) = ['.', '.', '.'] := by
  rw [truncRightDisplay, if_pos ⟨hl, h4⟩]
  have ht : (s.take (w - 4)).length = w - 4 := by
    rw [List.length_take]; omega
  constructor
  · rw [List.length_append, ht]
    simp only [List.length_cons, List.length_nil]
    omega
  · nth_rewrite 1 [← ht]
    rw [List.drop_left]

/-- C5: the claim fails as stated. The hostname abcdefghijk is 11 characters,
    the full host segment; at width 10 the rendered host column text is
    abcdef followed by the ellipsis, which is 9 cells, not 10. -/
theorem C5_counterexample :
    ("abcdefghijk".data.length > 10 ∧ 4 ≤ 10 ∧
      hostSegment "abcdefghijk".data = "abcdefghijk".data) ∧
    (hostDisplay "abcdefghijk".data 10).length ≠ 10 := by decide

/-- C5 amended: for width at least 4 and over-long input, the Directory
    column renders exactly width cells with a leading ellipsis, while the
    Host and User columns render exactly width - 1 cells with a trailing
    ellipsis. -/
theorem C5_truncation (s : List Char) (w : Nat) (h4 : 4 ≤ w) :
    (s.length > w →
      (directoryDisplay s w).length = w ∧
      (directoryDisplay s w).take 3 = ['.', '.', '.']) ∧
    ((hostSegment s).length > w →
      (hostDisplay s w).length = w - 1 ∧
      (hostDisplay s w).drop (w - 4) = ['.', '.', '.']) ∧
    ((userSegment s).length > w →
      (userDisplay s w).length = w - 1 ∧
      (userDisplay s w).drop (w - 4) = ['.', '.', '.']) := by
  refine ⟨fun hl => ?_, fun hl => truncRight_spec _ w h4 hl,
    fun hl => truncRight_spec _ w h4 hl⟩
  rw [directoryDisplay, if_pos ⟨hl, h4⟩]
  constructor
  · simp only [List.length_cons, List.length_drop]
    omega
  · rfl

/-- C5 witness: a 12-character hostname-and-user pair at width 6. -/
theorem C5_truncation_witness :
    4 ≤ 6 ∧
    (("machine-name:someuser".data.length > 6 →
      (directoryDisplay "machine-name:someuser".data 6).length = 6 ∧
      (directoryDisplay "machine-name:someuser".data 6).take 3 = ['.', '.', '.']) ∧
     ((hostSegment "machine-name:someuser".data).length > 6 →
      (hostDisplay "machine-name:someuser".data 6).length = 6 - 1 ∧
      (hostDisplay "machine-name:someuser".data 6).drop (6 - 4) = ['.', '.', '.']) ∧
     ((userSegment "machine-name:someuser".data).length > 6 →
      (userDisplay "machine-name:someuser".data 6).length = 6 - 1 ∧
      (userDisplay "machine-name:someuser".data 6).drop (6 - 4) = ['.', '.', '.'])) :=
  ⟨by decide, C5_truncation "machine-name:someuser".data 6 (by decide)⟩

/-- C6: the Directory column text is the ellipsis followed by the last
    width - 3 characters when the directory is longer than the width (at
    least 4), occupying exactly width cells; otherwise it is the directory
    right-padded with spaces to exactly width cells. -/
theorem C6_directory (cwd : List Char) (w : Nat) :
    (cwd.length > w ∧ 4 ≤ w →
      directoryDisplay cwd w =
        '.' :: '.' :: '.' :: cwd.drop (cwd.length - (w - 3)) ∧
      (cwd.drop (cwd.length - (w - 3))).length = w - 3 ∧
      (directoryDisplay cwd w).length = w) ∧
    (cwd.length ≤ w →
      directoryDisplay cwd w = cwd ++ List.replicate (w - cwd.length) ' ' ∧
      (directoryDisplay cwd w).length = w) := by
  constructor
  · rintro ⟨h1, h2⟩
    rw [directoryDisplay, if_pos ⟨h1, h2⟩]
    refine ⟨rfl, ?_, ?_⟩
    · rw [List.length_drop]; omega
    · simp only [List.length_cons, List.length_drop]; omega
  · intro h1
    rw [directoryDisplay, if_neg (by omega)]
    refine ⟨rfl, ?_⟩
    rw [padRight, List.length_append, List.length_replicate]
    omega

/-- C6 witness: scenario D from the spec, a 32-character path at width 10. -/
theorem C6_directory_witness :
    ("/very/long/path/that/is/too/long".data.length > 10 ∧ 4 ≤ 10) ∧
    (directoryDisplay "/very/long/path/that/is/too/long".data 10 =
        '.' :: '.' :: '.' ::
          "/very/long/path/that/is/too/long".data.drop
            ("/very/long/path/that/is/too/long".data.length - (10 - 3)) ∧
     ("/very/long/path/that/is/too/long".data.drop
        ("/very/long/path/that/is/too/long".data.length - (10 - 3))).length = 10 - 3 ∧
     (directoryDisplay "/very/long/path/that/is/too/long".data 10).length = 10) ∧
    directoryDisplay "/very/long/path/that/is/too/long".data 10 = "...oo/long".data :=
  ⟨by decide,
   (C6_directory "/very/long/path/that/is/too/long".data 10).1 (by decide),
   by decide⟩

/-! ## Data model for rendering -/

/-- Theme meaning roles read by the renderer (the theme itself is external). -/
inductive Meaning where
  | Base
  | Guidance
  | Annot
  | AlertInfo
  | AlertError
deriving DecidableEq, Repr

/-- A style as far as this core distinguishes styles: the theme role it was
    built from (none for the default style), the bold attribute set on
    highlighted command characters, and whether the selection background
    overlay was applied. -/
structure RStyle where
  meaning : Option Meaning
  bold : Bool
  selBg : Bool
deriving DecidableEq, Repr

/-- settings.UiColumnType. -/
inductive UiColumnType where
  | Duration
  | Time
  | Datetime
  | Directory
  | Host
  | User
  | Exit
  | Command
deriving DecidableEq, Repr

/-- settings.UiColumn. -/
structure UiColumn where
  columnType : UiColumnType
  width : Nat
  expand : Bool
deriving DecidableEq, Repr

/-- The fields of a History item the renderer reads. -/
structure HistoryItem where
  command : List Char
  duration : Int
  exit : Int
  timestamp : Int
  cwd : List Char
  hostname : List Char
deriving DecidableEq, Repr

/-- Modelled from the spec: History.success is defined outside the given
    sources; the spec says the success flag is derived from the exit status. -/
def HistoryItem.success (h : HistoryItem) : Bool := h.exit == 0

/-- External capabilities consumed by the renderer: the duration and
    datetime formatters, the control-character escaper, the match engine
    already applied to the fixed search input, and the injected clock value. -/
structure Externals where
  formatDuration : Nat → List Char
  formatDatetime : Int → List Char
  escapeControl : List Char → List Char
  highlight : List Char → List Nat
  now : Int

/-- ratatui layout.Rect restricted to what the renderer reads. -/
structure Rect where
  left : Nat
  top : Nat
  width : Nat
  height : Nat
deriving DecidableEq, Repr

/-- search.history_list.ListState. -/
structure ListState where
  offset : Nat
  selected : Nat
  maxEntries : Nat
deriving DecidableEq, Repr

/-- One grid cell written through the buffer sink. -/
structure Cell where
  x : Nat
  y : Nat
  ch : Char
  style : RStyle
deriving DecidableEq, Repr

/-- The mutable part of DrawState: the cursor, the cells written so far, and
    a flag recording that every unchecked unsigned subtraction performed so
    far was in range (ok = false models a Rust underflow panic). -/
structure DrawSt where
  x : Nat
  y : Nat
  writes : List Cell
  ok : Bool
deriving DecidableEq, Repr

/-- The immutable part of DrawState for one frame. -/
structure RenderCtx where
  ext : Externals
  columns : List UiColumn
  inverted : Bool
  area : Rect
  offset : Nat
  selected : Nat

/-- Style.default(). -/
def defaultStyle : RStyle := ⟨none, false, false⟩

/-- theme.as_style for a meaning role. -/
def themeStyle (m : Meaning) : RStyle := ⟨some m, false, false⟩

/-- get_selection_style: the default style carrying the selection background. -/
def selectionStyle : RStyle := ⟨none, false, true⟩

/-- DrawState.is_selected. -/
def isSelectedRow (ctx : RenderCtx) (st : DrawSt) : Bool :=
  st.y + ctx.offset == ctx.selected

/-- DrawState.draw: clip the text to the remaining width, write it at the
    cursor (mapping the logical row to a physical row by the inverted flag),
    apply the selection background on the selected row, and advance the
    cursor by the cells consumed. The subtraction width - x is unchecked u16
    subtraction in the source; its in-range condition is recorded in ok. -/
def draw (ctx : RenderCtx) (st : DrawSt) (s : List Char) (style : RStyle) : DrawSt :=
  let cx := ctx.area.left + st.x
  let cy := if ctx.inverted then ctx.area.top + st.y
            else ctx.area.top + ctx.area.height - st.y - 1
  let style := if isSelectedRow ctx st then { style with selBg := true } else style
  let written := s.take (ctx.area.width - st.x)
  { x := st.x + written.length
    y := st.y
    writes := st.writes ++ written.enum.map (fun p => ⟨cx + p.1, cy, p.2, style⟩)
    ok := st.ok && decide (st.x ≤ ctx.area.width) }

/-- DrawState.duration. -/
def durationCol (ctx : RenderCtx) (st : DrawSt) (h : HistoryItem) (w : Nat) : DrawSt :=
  let m := if h.success then Meaning.AlertInfo else Meaning.AlertError
  draw ctx st (padLeft w (ctx.ext.formatDuration h.duration.toNat)) (themeStyle m)

/-- DrawState.time: elapsed time against the injected clock, clamped to zero
    for future timestamps, formatted with a literal ago suffix. -/
def timeCol (ctx : RenderCtx) (st : DrawSt) (h : HistoryItem) (w : Nat) : DrawSt :=
  let since := (ctx.ext.now - h.timestamp).toNat
  draw ctx st (padLeft w (ctx.ext.formatDuration since ++ " ago".data))
    (themeStyle Meaning.Guidance)

/-- DrawState.datetime. -/
def datetimeCol (ctx : RenderCtx) (st : DrawSt) (h : HistoryItem) (w : Nat) : DrawSt :=
  draw ctx st (padRight w (ctx.ext.formatDatetime h.timestamp)) (themeStyle Meaning.Annot)

/-- DrawState.directory. -/
def directoryCol (ctx : RenderCtx) (st : DrawSt) (h : HistoryItem) (w : Nat) : DrawSt :=
  draw ctx st (directoryDisplay h.cwd w) (themeStyle Meaning.Annot)

/-- DrawState.host. -/
def hostCol (ctx : RenderCtx) (st : DrawSt) (h : HistoryItem) (w : Nat) : DrawSt :=
  draw ctx st (hostDisplay h.hostname w) (themeStyle Meaning.Annot)

/-- DrawState.user. -/
def userCol (ctx : RenderCtx) (st : DrawSt) (h : HistoryItem) (w : Nat) : DrawSt :=
  draw ctx st (userDisplay h.hostname w) (themeStyle Meaning.Annot)

/-- DrawState.exit_code. -/
def exitCol (ctx : RenderCtx) (st : DrawSt) (h : HistoryItem) (w : Nat) : DrawSt :=
  let m := if h.success then Meaning.AlertInfo else Meaning.AlertError
  draw ctx st (padLeft w (toString h.exit).data) (themeStyle m)

/-- The inner character loop of DrawState.command: look up the running byte
    position in the highlight indices, draw the character bold when found,
    and advance the position by the UTF-8 byte length of the character.
    A result flag of true means the whole command stops early because the
    cursor passed the width. -/
def cmdChars (ctx : RenderCtx) (hl : List Nat) :
    DrawSt → Nat → List Char → DrawSt × Nat × Bool
  | st, pos, [] => (st, pos, false)
  | st, pos, c :: cs =>
    if st.x > ctx.area.width then (st, pos, true)
    else
      cmdChars ctx hl (draw ctx st [c] ⟨some Meaning.Base, decide (pos ∈ hl), false⟩)
        (pos + c.utf8Size) cs

/-- The token loop of DrawState.command: a separator space before the token
    when the running position is nonzero, the character loop, then one extra
    position for the separator. -/
def cmdTokens (ctx : RenderCtx) (hl : List Nat) :
    DrawSt → Nat → List (List Char) → DrawSt
  | st, _, [] => st
  | st, pos, t :: ts =>
    let st1 := if pos ≠ 0 then draw ctx st [' '] (themeStyle Meaning.Base) else st
    let r := cmdChars ctx hl st1 pos t
    if r.2.2 then r.1 else cmdTokens ctx hl r.1 (r.2.1 + 1) ts

/-- DrawState.command: escape the command, tokenize on ASCII whitespace,
    hand the single-space rejoin to the highlighter, then walk the tokens. -/
def commandCol (ctx : RenderCtx) (st : DrawSt) (h : HistoryItem) : DrawSt :=
  let toks := splitAsciiWs (ctx.ext.escapeControl h.command)
  let hl := ctx.ext.highlight (normalizedCmd toks)
  cmdTokens ctx hl st 0 toks

/-- Sum of configured width + 1 over the non-expanding columns. -/
def fixedSum (cols : List UiColumn) : Nat :=
  ((cols.filter (fun c => !c.expand)).map (fun c => c.width + 1)).sum

/-- The width handed to the expanding column: the area width minus the left
    padding and the fixed budget, saturating at zero. -/
def expandWidth (w : Nat) (cols : List UiColumn) : Nat :=
  w - (1 + fixedSum cols)

/-- Dispatch one column by its type. -/
def renderColumn (ctx : RenderCtx) (st : DrawSt) (h : HistoryItem)
    (ty : UiColumnType) (w : Nat) : DrawSt :=
  match ty with
  | .Duration => durationCol ctx st h w
  | .Time => timeCol ctx st h w
  | .Datetime => datetimeCol ctx st h w
  | .Directory => directoryCol ctx st h w
  | .Host => hostCol ctx st h w
  | .User => userCol ctx st h w
  | .Exit => exitCol ctx st h w
  | .Command => commandCol ctx st h

/-- The column loop of DrawState.render_row: one separator space before
    every column after the first, then the column at its assigned width. -/
def renderCols (ctx : RenderCtx) (h : HistoryItem) (eW : Nat) :
    DrawSt → Nat → List UiColumn → DrawSt
  | st, _, [] => st
  | st, idx, c :: cs =>
    let st1 := if idx ≠ 0 then draw ctx st [' '] (themeStyle Meaning.Base) else st
    let w := if c.expand then eW else c.width
    renderCols ctx h eW (renderColumn ctx st1 h c.columnType w) (idx + 1) cs

/-- DrawState.fill_row_remainder. -/
def fillRowRemainder (ctx : RenderCtx) (st : DrawSt) : DrawSt :=
  if isSelectedRow ctx st then
    let remaining := ctx.area.width - st.x
    if remaining > 0 then
      draw ctx st (List.replicate remaining ' ') selectionStyle
    else st
  else st

/-- DrawState.render_row: left padding, the columns, then the selected-row
    remainder fill. -/
def renderRow (ctx : RenderCtx) (st : DrawSt) (h : HistoryItem) : DrawSt :=
  let st1 := draw ctx st [' '] defaultStyle
  fillRowRemainder ctx
    (renderCols ctx h (expandWidth ctx.area.width ctx.columns) st1 0 ctx.columns)

/-- The row loop of render: after each row advance the logical row and reset
    the cursor column. -/
def renderRows (ctx : RenderCtx) : DrawSt → List HistoryItem → DrawSt
  | st, [] => st
  | st, h :: hs =>
    let st1 := renderRow ctx st h
    renderRows ctx { st1 with y := st1.y + 1, x := 0 } hs

/-- The visible slice of the history for a window. -/
def visibleRows (items : List HistoryItem) (b : Nat × Nat) : List HistoryItem :=
  (items.drop b.1).take (b.2 - b.1)

/-- The early-return guard of render: degenerate viewport or empty list. -/
def renderGuard (items : List HistoryItem) (area : Rect) : Prop :=
  area.width < 1 ∨ area.height < 1 ∨ items.isEmpty

instance (items : List HistoryItem) (area : Rect) :
    Decidable (renderGuard items area) :=
  inferInstanceAs (Decidable (_ ∨ _ ∨ _))

/-- StatefulWidget.render for HistoryList (with no surrounding block, as the
    constructor builds it): the cells written, the updated ListState, and the
    conjunction of every unchecked-subtraction in-range check. -/
def render (ext : Externals) (cols : List UiColumn) (inverted : Bool)
    (items : List HistoryItem) (area : Rect) (st : ListState) :
    List Cell × ListState × Bool :=
  if renderGuard items area then
    ([], st, true)
  else
    let b := get_items_bounds items.length st.selected st.offset area.height
    let st2 : ListState := { st with offset := b.1, maxEntries := b.2 - b.1 }
    let ctx : RenderCtx := ⟨ext, cols, inverted, area, st2.offset, st2.selected⟩
    let d := renderRows ctx ⟨0, 0, [], true⟩ (visibleRows items b)
    (d.writes, st2,
      (get_items_bounds_checked items.length st.selected st.offset area.height).isSome
        && d.ok)

/-- A concrete choice of the external capabilities, used by witnesses. -/
def extTriv : Externals :=
  ⟨fun _ => "1s".data, fun _ => "2025-01-01 00:00".data, fun s => s, fun _ => [], 0⟩

/-! ## C7: empty list or degenerate viewport -/

/-- C7: the claim fails as stated. Rendering an empty history list returns
    early without touching the ListState at all: a stale max_entries of 7
    survives instead of being reset to zero. -/
theorem C7_counterexample :
    (render extTriv [] false [] ⟨0, 0, 5, 5⟩ ⟨3, 0, 7⟩).1 = [] ∧
    (render extTriv [] false [] ⟨0, 0, 5, 5⟩ ⟨3, 0, 7⟩).2.1.maxEntries = 7 ∧
    ¬ (render extTriv [] false [] ⟨0, 0, 5, 5⟩ ⟨3, 0, 7⟩).2.1.maxEntries = 0 := by
  decide

/-- C7 amended: with an empty list, or a zero-width or zero-height viewport,
    render writes nothing into the buffer and leaves the ListState completely
    unchanged (max_entries keeps its previous value). -/
theorem C7_early_return (ext : Externals) (cols : List UiColumn)
    (inverted : Bool) (items : List HistoryItem) (area : Rect) (st : ListState)
    (h : items = [] ∨ area.width = 0 ∨ area.height = 0) :
    (render ext cols inverted items area st).1 = [] ∧
    (render ext cols inverted items area st).2.1 = st := by
  have hc : renderGuard items area := by
    rw [renderGuard]
    rcases h with h | h | h
    · right; right; rw [h]; rfl
    · left; omega
    · right; left; omega
  rw [render, if_pos hc]
  exact ⟨rfl, rfl⟩

/-- C7 witness: an empty list with a 5 by 5 viewport and stale state. -/
theorem C7_early_return_witness :
    (([] : List HistoryItem) = [] ∨ (⟨0, 0, 5, 5⟩ : Rect).width = 0 ∨
      (⟨0, 0, 5, 5⟩ : Rect).height = 0) ∧
    ((render extTriv [] false [] ⟨0, 0, 5, 5⟩ ⟨3, 0, 7⟩).1 = [] ∧
     (render extTriv [] false [] ⟨0, 0, 5, 5⟩ ⟨3, 0, 7⟩).2.1 = ⟨3, 0, 7⟩) :=
  ⟨Or.inl rfl, C7_early_return extTriv [] false [] ⟨0, 0, 5, 5⟩ ⟨3, 0, 7⟩ (Or.inl rfl)⟩

/-! ## C8: column layout width budget -/

/-- The width render_row assigns to a column. -/
def colAssignedWidth (w : Nat) (cols : List UiColumn) (c : UiColumn) : Nat :=
  if c.expand then expandWidth w cols else c.width

/-- The width budget of one row as render_row lays it out: the left padding,
    every column at its assigned width, and one separator between columns. -/
def totalRowWidth (w : Nat) (cols : List UiColumn) : Nat :=
  1 + (cols.map (colAssignedWidth w cols)).sum + (cols.length - 1)

/-- The assigned widths of a column list sum to the fixed widths plus the
    expand width once per expanding column. -/
theorem assigned_sum (w : Nat) (cols l : List UiColumn) :
    (l.map (colAssignedWidth w cols)).sum =
      ((l.filter (fun c => !c.expand)).map (fun c => c.width)).sum +
        l.countP (fun c => c.expand) * expandWidth w cols := by
  induction l with
  | nil => simp
  | cons c cs ih =>
    by_cases hc : c.expand = true <;>
      simp [colAssignedWidth, hc, List.countP_cons, ih] <;> ring

/-- fixedSum splits into the plain fixed widths and the separator budget. -/
theorem fixedSum_eq (l : List UiColumn) :
    fixedSum l = ((l.filter (fun c => !c.expand)).map (fun c => c.width)).sum +
      l.countP (fun c => !c.expand) := by
  rw [fixedSum, List.countP_eq_length_filter]
  induction l.filter (fun c => !c.expand) with
  | nil => rfl
  | cons c cs ih => simp only [List.map_cons, List.sum_cons, List.length_cons, ih]; omega

/-- Every column either expands or not. -/
theorem countP_expand_split (l : List UiColumn) :
    l.countP (fun c => c.expand) + l.countP (fun c => !c.expand) = l.length := by
  induction l with
  | nil => rfl
  | cons c cs ih =>
    by_cases hc : c.expand = true <;> simp [List.countP_cons, hc] <;> omega

/-- C8: the claim fails as stated. One non-expanding column of width 100 next
    to one expanding column, in an area of width 10, has at most one expanding
    column yet a row budget of 102. -/
theorem C8_counterexample :
    ([⟨.Exit, 100, false⟩, ⟨.Command, 0, true⟩] : List UiColumn).countP
        (fun c => c.expand) ≤ 1 ∧
    ¬ (totalRowWidth 10 [⟨.Exit, 100, false⟩, ⟨.Command, 0, true⟩] ≤ 10) := by
  decide

/-- C8 amended: when at most one column expands and the left padding plus the
    fixed budget fits in the available width, the row budget never exceeds the
    available width, and the expanding width is the available width minus the
    padding and the fixed budget (saturating at zero). -/
theorem C8_row_width (w : Nat) (cols : List UiColumn)
    (hE : cols.countP (fun c => c.expand) ≤ 1)
    (hfit : 1 + fixedSum cols ≤ w) :
    totalRowWidth w cols ≤ w ∧
    expandWidth w cols = w - (1 + fixedSum cols) := by
  refine ⟨?_, rfl⟩
  rw [totalRowWidth, assigned_sum]
  have h2 := fixedSum_eq cols
  have h3 := countP_expand_split cols
  have hEW : expandWidth w cols = w - (1 + fixedSum cols) := rfl
  have he : cols.countP (fun c => c.expand) = 0 ∨
      cols.countP (fun c => c.expand) = 1 := by omega
  rcases he with he | he <;> rw [he] <;> omega

/-- C8 witness: a fixed Time column of width 8 and an expanding Command
    column in an area of width 20. -/
theorem C8_row_width_witness :
    ([⟨.Time, 8, false⟩, ⟨.Command, 0, true⟩] : List UiColumn).countP
        (fun c => c.expand) ≤ 1 ∧
    1 + fixedSum [⟨.Time, 8, false⟩, ⟨.Command, 0, true⟩] ≤ 20 ∧
    (totalRowWidth 20 [⟨.Time, 8, false⟩, ⟨.Command, 0, true⟩] ≤ 20 ∧
     expandWidth 20 [⟨.Time, 8, false⟩, ⟨.Command, 0, true⟩] =
       20 - (1 + fixedSum [⟨.Time, 8, false⟩, ⟨.Command, 0, true⟩])) :=
  ⟨by decide, by decide,
   C8_row_width 20 [⟨.Time, 8, false⟩, ⟨.Command, 0, true⟩] (by decide) (by decide)⟩

/-! ## Equations for render and C3 (idempotence) -/

/-- render on the early-return path. -/
theorem render_eq_early (ext : Externals) (cols : List UiColumn) (inverted : Bool)
    (items : List HistoryItem) (area : Rect) (st : ListState)
    (hg : renderGuard items area) :
    render ext cols inverted items area st = ([], st, true) := by
  rw [render, if_pos hg]

/-- The cells written by render on the main path. -/
theorem render_writes_eq (ext : Externals) (cols : List UiColumn) (inverted : Bool)
    (items : List HistoryItem) (area : Rect) (st : ListState)
    (hg : ¬ renderGuard items area) :
    (render ext cols inverted items area st).1 =
      (renderRows
        ⟨ext, cols, inverted, area,
          (get_items_bounds items.length st.selected st.offset area.height).1,
          st.selected⟩
        ⟨0, 0, [], true⟩
        (visibleRows items
          (get_items_bounds items.length st.selected st.offset area.height))).writes := by
  rw [render, if_neg hg]

/-- The ListState produced by render on the main path. -/
theorem render_state_eq (ext : Externals) (cols : List UiColumn) (inverted : Bool)
    (items : List HistoryItem) (area : Rect) (st : ListState)
    (hg : ¬ renderGuard items area) :
    (render ext cols inverted items area st).2.1 =
      ⟨(get_items_bounds items.length st.selected st.offset area.height).1,
       st.selected,
       (get_items_bounds items.length st.selected st.offset area.height).2 -
         (get_items_bounds items.length st.selected st.offset area.height).1⟩ := by
  rw [render, if_neg hg]

/-- The subtraction-in-range flag produced by render on the main path. -/
theorem render_ok_eq (ext : Externals) (cols : List UiColumn) (inverted : Bool)
    (items : List HistoryItem) (area : Rect) (st : ListState)
    (hg : ¬ renderGuard items area) :
    (render ext cols inverted items area st).2.2 =
      ((get_items_bounds_checked items.length st.selected st.offset area.height).isSome
        && (renderRows
          ⟨ext, cols, inverted, area,
            (get_items_bounds items.length st.selected st.offset area.height).1,
            st.selected⟩
          ⟨0, 0, [], true⟩
          (visibleRows items
            (get_items_bounds items.length st.selected st.offset area.height))).ok) := by
  rw [render, if_neg hg]

/-- C3: rendering is deterministic and idempotent. Rendering a second time
    with the same items, columns, clock and area, starting from the ListState
    left by the first render, writes the identical cells and leaves the
    ListState (offset, selected, max_entries) unchanged. -/
theorem C3_render_idempotent (ext : Externals) (cols : List UiColumn)
    (inverted : Bool) (items : List HistoryItem) (area : Rect) (st : ListState)
    (hs : st.selected < items.length) :
    (render ext cols inverted items area
        (render ext cols inverted items area st).2.1).1 =
      (render ext cols inverted items area st).1 ∧
    (render ext cols inverted items area
        (render ext cols inverted items area st).2.1).2.1 =
      (render ext cols inverted items area st).2.1 := by
  by_cases g : renderGuard items area
  · have h1 := render_eq_early ext cols inverted items area st g
    rw [h1]
    have h2 := render_eq_early ext cols inverted items area
      (([], st, true) : List Cell × ListState × Bool).2.1 g
    exact ⟨congrArg Prod.fst h2, congrArg (fun p => p.2.1) h2⟩
  · obtain ⟨s, e, hb, hle, hlen, hadd, _, hm⟩ :=
      bounds_char items.length st.selected st.offset area.height hs
    have hidem2 : get_items_bounds items.length st.selected s area.height = (s, e) := by
      have h0 := bounds_idem items.length st.selected st.offset area.height hs
      rw [hb] at h0
      exact h0
    have e2 := render_state_eq ext cols inverted items area st g
    rw [hb] at e2
    have L : ListState := ⟨s, st.selected, e - s⟩
    have e2b := render_state_eq ext cols inverted items area
      (⟨(s, e).1, st.selected, (s, e).2 - (s, e).1⟩ : ListState) g
    have hidem3 : get_items_bounds items.length
        (ListState.selected ⟨(s, e).1, st.selected, (s, e).2 - (s, e).1⟩)
        (ListState.offset ⟨(s, e).1, st.selected, (s, e).2 - (s, e).1⟩)
        area.height = (s, e) := hidem2
    rw [hidem3] at e2b
    have e1 := render_writes_eq ext cols inverted items area st g
    rw [hb] at e1
    have e1b := render_writes_eq ext cols inverted items area
      (⟨(s, e).1, st.selected, (s, e).2 - (s, e).1⟩ : ListState) g
    rw [hidem3] at e1b
    rw [e2]
    constructor
    · rw [e1b, e1]
    · rw [e2b]

/-- C3 witness: one item, a 6 by 2 area, a single expanding Command column. -/
theorem C3_render_idempotent_witness :
    (⟨0, 0, 0⟩ : ListState).selected <
      ([⟨"ls".data, 0, 0, 0, "/".data, "h:u".data⟩] : List HistoryItem).length ∧
    ((render extTriv [⟨.Command, 0, true⟩] false
        [⟨"ls".data, 0, 0, 0, "/".data, "h:u".data⟩] ⟨0, 0, 6, 2⟩
        (render extTriv [⟨.Command, 0, true⟩] false
          [⟨"ls".data, 0, 0, 0, "/".data, "h:u".data⟩] ⟨0, 0, 6, 2⟩ ⟨0, 0, 0⟩).2.1).1 =
      (render extTriv [⟨.Command, 0, true⟩] false
        [⟨"ls".data, 0, 0, 0, "/".data, "h:u".data⟩] ⟨0, 0, 6, 2⟩ ⟨0, 0, 0⟩).1 ∧
     (render extTriv [⟨.Command, 0, true⟩] false
        [⟨"ls".data, 0, 0, 0, "/".data, "h:u".data⟩] ⟨0, 0, 6, 2⟩
        (render extTriv [⟨.Command, 0, true⟩] false
          [⟨"ls".data, 0, 0, 0, "/".data, "h:u".data⟩] ⟨0, 0, 6, 2⟩ ⟨0, 0, 0⟩).2.1).2.1 =
      (render extTriv [⟨.Command, 0, true⟩] false
        [⟨"ls".data, 0, 0, 0, "/".data, "h:u".data⟩] ⟨0, 0, 6, 2⟩ ⟨0, 0, 0⟩).2.1) :=
  ⟨by decide,
   C3_render_idempotent extTriv [⟨.Command, 0, true⟩] false
     [⟨"ls".data, 0, 0, 0, "/".data, "h:u".data⟩] ⟨0, 0, 6, 2⟩ ⟨0, 0, 0⟩ (by decide)⟩

/-! ## C10: only in-range items are read -/

/-- The slice (drop then take) reads exactly the in-range indices. -/
theorem visibleRows_spec (items : List HistoryItem) (s e : Nat)
    (hse : s ≤ e) (hsl : s ≤ items.length) :
    (visibleRows items (s, e)).length = min e items.length - s ∧
    ∀ i, i < (visibleRows items (s, e)).length →
      (visibleRows items (s, e))[i]? = items[s + i]? ∧ s + i < items.length := by
  have hL : (visibleRows items (s, e)).length = min e items.length - s := by
    show ((items.drop s).take (e - s)).length = min e items.length - s
    rw [List.length_take, List.length_drop]
    omega
  refine ⟨hL, fun i hi => ?_⟩
  rw [hL] at hi
  refine ⟨?_, by omega⟩
  show ((items.drop s).take (e - s))[i]? = items[s + i]?
  rw [List.getElem?_take, if_pos (show i < e - s by omega), List.getElem?_drop]

/-- C10: the row loop of render reads exactly the items with indices in
    [start, min(end, length)): even when the window end exceeds the list
    length the slice clamps to the actual length, every index read is in
    bounds, and the number of rows drawn is min(end, length) - start. -/
theorem C10_in_range_reads (items : List HistoryItem)
    (selected offset height : Nat) (hs : selected < items.length) :
    (visibleRows items (get_items_bounds items.length selected offset height)).length =
      min (get_items_bounds items.length selected offset height).2 items.length -
        (get_items_bounds items.length selected offset height).1 ∧
    ∀ i, i < (visibleRows items
        (get_items_bounds items.length selected offset height)).length →
      (visibleRows items (get_items_bounds items.length selected offset height))[i]? =
        items[(get_items_bounds items.length selected offset height).1 + i]? ∧
      (get_items_bounds items.length selected offset height).1 + i < items.length := by
  obtain ⟨s, e, hb, hle, hlen, hadd, _, _⟩ :=
    bounds_char items.length selected offset height hs
  rw [hb]
  exact visibleRows_spec items s e (by omega) (by omega)

/-- C10 witness: two items, selection on the second, height 1: the window is
    (1, 2) and exactly the second item is read. -/
theorem C10_in_range_reads_witness :
    1 < ([⟨"a".data, 0, 0, 0, [], []⟩, ⟨"b".data, 0, 0, 0, [], []⟩] :
        List HistoryItem).length ∧
    ((visibleRows [⟨"a".data, 0, 0, 0, [], []⟩, ⟨"b".data, 0, 0, 0, [], []⟩]
        (get_items_bounds 2 1 0 1)).length =
      min (get_items_bounds 2 1 0 1).2 2 - (get_items_bounds 2 1 0 1).1 ∧
     ∀ i, i < (visibleRows [⟨"a".data, 0, 0, 0, [], []⟩, ⟨"b".data, 0, 0, 0, [], []⟩]
          (get_items_bounds 2 1 0 1)).length →
       (visibleRows [⟨"a".data, 0, 0, 0, [], []⟩, ⟨"b".data, 0, 0, 0, [], []⟩]
          (get_items_bounds 2 1 0 1))[i]? =
         ([⟨"a".data, 0, 0, 0, [], []⟩, ⟨"b".data, 0, 0, 0, [], []⟩] :
           List HistoryItem)[(get_items_bounds 2 1 0 1).1 + i]? ∧
       (get_items_bounds 2 1 0 1).1 + i < 2) :=
  ⟨by decide,
   C10_in_range_reads [⟨"a".data, 0, 0, 0, [], []⟩, ⟨"b".data, 0, 0, 0, [], []⟩]
     1 0 1 (by decide)⟩

/-! ## C9: no width subtraction underflows during a render -/

/-- The drawing invariant: cursor within the area width and no underflow so
    far. -/
def goodD (w : Nat) (st : DrawSt) : Prop := st.x ≤ w ∧ st.ok = true

/-- The cursor advance of one draw call. -/
theorem draw_x_eq (ctx : RenderCtx) (st : DrawSt) (s : List Char) (sty : RStyle) :
    (draw ctx st s sty).x = st.x + (s.take (ctx.area.width - st.x)).length := rfl

/-- The underflow flag of one draw call. -/
theorem draw_ok_eq (ctx : RenderCtx) (st : DrawSt) (s : List Char) (sty : RStyle) :
    (draw ctx st s sty).ok = (st.ok && decide (st.x ≤ ctx.area.width)) := rfl

/-- draw preserves the invariant: the clipped advance never passes the width,
    and the in-range check succeeds. -/
theorem draw_good (ctx : RenderCtx) (st : DrawSt) (s : List Char) (sty : RStyle)
    (h : goodD ctx.area.width st) : goodD ctx.area.width (draw ctx st s sty) := by
  obtain ⟨h1, h2⟩ := h
  constructor
  · rw [draw_x_eq, List.length_take]
    omega
  · rw [draw_ok_eq, h2, Bool.true_and, decide_eq_true_eq]
    exact h1

/-- The command character loop preserves the invariant. -/
theorem cmdChars_good (ctx : RenderCtx) (hl : List Nat) (cs : List Char) :
    ∀ st pos, goodD ctx.area.width st →
      goodD ctx.area.width (cmdChars ctx hl st pos cs).1 := by
  induction cs with
  | nil => intro st pos h; exact h
  | cons c cs ih =>
    intro st pos h
    simp only [cmdChars]
    split_ifs with hx
    · exact h
    · exact ih _ _ (draw_good _ _ _ _ h)

/-- The command token loop preserves the invariant. -/
theorem cmdTokens_good (ctx : RenderCtx) (hl : List Nat) (ts : List (List Char)) :
    ∀ st pos, goodD ctx.area.width st →
      goodD ctx.area.width (cmdTokens ctx hl st pos ts) := by
  induction ts with
  | nil => intro st pos h; exact h
  | cons t ts ih =>
    intro st pos h
    simp only [cmdTokens]
    split_ifs with hp hr hr
    · exact cmdChars_good ctx hl t _ pos (draw_good _ _ _ _ h)
    · exact ih _ _ (cmdChars_good ctx hl t _ pos (draw_good _ _ _ _ h))
    · exact cmdChars_good ctx hl t _ pos h
    · exact ih _ _ (cmdChars_good ctx hl t _ pos h)

/-- Every column write preserves the invariant. -/
theorem renderColumn_good (ctx : RenderCtx) (st : DrawSt) (h : HistoryItem)
    (ty : UiColumnType) (w : Nat) (hg : goodD ctx.area.width st) :
    goodD ctx.area.width (renderColumn ctx st h ty w) := by
  cases ty
  case Duration => exact draw_good _ _ _ _ hg
  case Time => exact draw_good _ _ _ _ hg
  case Datetime => exact draw_good _ _ _ _ hg
  case Directory => exact draw_good _ _ _ _ hg
  case Host => exact draw_good _ _ _ _ hg
  case User => exact draw_good _ _ _ _ hg
  case Exit => exact draw_good _ _ _ _ hg
  case Command => exact cmdTokens_good _ _ _ _ _ hg

/-- The column loop preserves the invariant. -/
theorem renderCols_good (ctx : RenderCtx) (h : HistoryItem) (eW : Nat)
    (cols : List UiColumn) :
    ∀ st idx, goodD ctx.area.width st →
      goodD ctx.area.width (renderCols ctx h eW st idx cols) := by
  induction cols with
  | nil => intro st idx hg; exact hg
  | cons c cs ih =>
    intro st idx hg
    simp only [renderCols]
    refine ih _ _ ?_
    apply renderColumn_good
    split_ifs
    · exact draw_good _ _ _ _ hg
    · exact hg

/-- The remainder fill preserves the invariant. -/
theorem fillRowRemainder_good (ctx : RenderCtx) (st : DrawSt)
    (h : goodD ctx.area.width st) :
    goodD ctx.area.width (fillRowRemainder ctx st) := by
  simp only [fillRowRemainder]
  split_ifs with h1 h2
  · exact draw_good _ _ _ _ h
  · exact h
  · exact h

/-- A whole row preserves the invariant. -/
theorem renderRow_good (ctx : RenderCtx) (st : DrawSt) (h : HistoryItem)
    (hg : goodD ctx.area.width st) :
    goodD ctx.area.width (renderRow ctx st h) := by
  simp only [renderRow]
  exact fillRowRemainder_good _ _
    (renderCols_good _ _ _ _ _ _ (draw_good _ _ _ _ hg))

/-- The row loop keeps the underflow flag true from any good start. -/
theorem renderRows_ok (ctx : RenderCtx) (rows : List HistoryItem) :
    ∀ st, goodD ctx.area.width st → (renderRows ctx st rows).ok = true := by
  induction rows with
  | nil => intro st h; exact h.2
  | cons r rs ih =>
    intro st h
    simp only [renderRows]
    refine ih _ ?_
    have h1 := renderRow_good ctx st r h
    exact ⟨Nat.zero_le _, h1.2⟩

/-- The checked scroll computation never hits an underflow for a valid
    selection. -/
theorem checked_isSome (len selected offset height : Nat) (hs : selected < len) :
    (get_items_bounds_checked len selected offset height).isSome = true := by
  simp only [get_items_bounds_checked]
  split_ifs <;> first | rfl | (exfalso; omega)

/-- C9: under the precondition selected < length, a whole render is free of
    unsigned-subtraction underflow: every draw call happens with cursor x at
    most the area width (so width - x is in range), and the subtraction
    length - selected inside get_items_bounds is in range (the checked
    variant succeeds). The flag collects exactly these checks. -/
theorem C9_no_underflow (ext : Externals) (cols : List UiColumn)
    (inverted : Bool) (items : List HistoryItem) (area : Rect) (st : ListState)
    (hs : st.selected < items.length) :
    (render ext cols inverted items area st).2.2 = true := by
  by_cases g : renderGuard items area
  · rw [render_eq_early ext cols inverted items area st g]
  · rw [render_ok_eq ext cols inverted items area st g, Bool.and_eq_true]
    exact ⟨checked_isSome _ _ _ _ hs,
      renderRows_ok _ _ _ ⟨Nat.zero_le _, rfl⟩⟩

/-- C9 witness: one item, a 12 by 2 area, Exit plus expanding Command
    columns. -/
theorem C9_no_underflow_witness :
    (⟨0, 0, 0⟩ : ListState).selected <
      ([⟨"git st".data, 7, 1, 3, "/tmp".data, "h:u".data⟩] : List HistoryItem).length ∧
    (render extTriv [⟨.Exit, 3, false⟩, ⟨.Command, 0, true⟩] true
      [⟨"git st".data, 7, 1, 3, "/tmp".data, "h:u".data⟩]
      ⟨2, 1, 12, 2⟩ ⟨0, 0, 0⟩).2.2 = true :=
  ⟨by decide,
   C9_no_underflow extTriv [⟨.Exit, 3, false⟩, ⟨.Command, 0, true⟩] true
     [⟨"git st".data, 7, 1, 3, "/tmp".data, "h:u".data⟩]
     ⟨2, 1, 12, 2⟩ ⟨0, 0, 0⟩ (by decide)⟩

/-! ## C4: command highlight alignment -/

/-- UTF-8 byte length of a character list (Rust str len). -/
def byteLen : List Char → Nat
  | [] => 0
  | c :: cs => c.utf8Size + byteLen cs

/-- Display cells of the rendered command: one per character plus one
    separator between tokens. -/
def cmdDisplayLen (ts : List (List Char)) : Nat :=
  (ts.map List.length).sum + (ts.length - 1)

/-- Display cells of the token walk from an intermediate state: a leading
    separator cell when not at the first token. -/
def cmdCells : Bool → List (List Char) → Nat
  | _, [] => 0
  | true, t :: ts => t.length + cmdCells false ts
  | false, t :: ts => 1 + t.length + cmdCells false ts

/-- The character/bold pairs the code produces for one token starting at
    byte position pos. -/
def tokFlags (hl : List Nat) : Nat → List Char → List (Char × Bool)
  | _, [] => []
  | pos, c :: cs => (c, decide (pos ∈ hl)) :: tokFlags hl (pos + c.utf8Size) cs

/-- The character/bold pairs the code produces for a token list from byte
    position pos: a non-bold separator before each token when pos is
    nonzero, then the token, then one extra byte for the separator. -/
def specTokens (hl : List Nat) : Nat → List (List Char) → List (Char × Bool)
  | _, [] => []
  | pos, t :: ts =>
    (if pos ≠ 0 then [(' ', false)] else []) ++
      (tokFlags hl pos t ++ specTokens hl (pos + byteLen t + 1) ts)

/-- The amended claim, read on the normalized command with byte counting: a
    character at running byte offset p is emphasized exactly when p is a
    match offset and the character is not a separator space. -/
def specWalkBytes (hl : List Nat) : Nat → List Char → List (Char × Bool)
  | _, [] => []
  | p, c :: cs =>
    (c, decide (p ∈ hl) && !(c == ' ')) :: specWalkBytes hl (p + c.utf8Size) cs

/-- The claim as stated, counting positions in characters: the character at
    offset p (in characters) is emphasized exactly when p is a match offset
    (separator spaces are never emphasized). -/
def specWalkChars (hl : List Nat) : Nat → List Char → List (Char × Bool)
  | _, [] => []
  | p, c :: cs =>
    (c, decide (p ∈ hl) && !(c == ' ')) :: specWalkChars hl (p + 1) cs

/-- The character cells the command column writes past an initial state,
    with their bold flags. -/
def cmdRendered (ctx : RenderCtx) (st : DrawSt) (h : HistoryItem) :
    List (Char × Bool) :=
  ((commandCol ctx st h).writes.drop st.writes.length).map
    (fun c => (c.ch, c.style.bold))

/-- The selection overlay never changes the bold attribute. -/
theorem style_bold_if (b : Bool) (sty : RStyle) :
    (if b = true then { sty with selBg := true } else sty).bold = sty.bold := by
  split_ifs <;> rfl

/-- Tokens produced by the whitespace splitter contain no whitespace. -/
theorem splitAsciiWsAux_no_ws (s : List Char) : ∀ cur,
    (∀ c ∈ cur, isAsciiWs c = false) →
    ∀ t ∈ splitAsciiWsAux s cur, ∀ c ∈ t, isAsciiWs c = false := by
  induction s with
  | nil =>
    intro cur hcur t ht c hc
    simp only [splitAsciiWsAux] at ht
    split_ifs at ht
    · exact absurd ht (List.not_mem_nil t)
    · rw [List.mem_singleton] at ht
      subst ht
      exact hcur c (List.mem_reverse.mp hc)
  | cons a as ih =>
    intro cur hcur t ht c hc
    simp only [splitAsciiWsAux] at ht
    split_ifs at ht with h1 h2
    · exact ih [] (by intro x hx; exact absurd hx (List.not_mem_nil x)) t ht c hc
    · rw [List.mem_cons] at ht
      rcases ht with ht | ht
      · subst ht
        exact hcur c (List.mem_reverse.mp hc)
      · exact ih [] (by intro x hx; exact absurd hx (List.not_mem_nil x)) t ht c hc
    · refine ih (a :: cur) ?_ t ht c hc
      intro x hx
      rw [List.mem_cons] at hx
      rcases hx with hx | hx
      · subst hx
        rw [Bool.not_eq_true] at h1
        exact h1
      · exact hcur x hx

/-- Tokens of split_ascii_whitespace contain no ASCII whitespace. -/
theorem splitAsciiWs_no_ws (s : List Char) :
    ∀ t ∈ splitAsciiWs s, ∀ c ∈ t, isAsciiWs c = false :=
  splitAsciiWsAux_no_ws s []
    (by intro x hx; exact absurd hx (List.not_mem_nil x))

/-- cmdCells with a leading separator counts every token plus one separator
    each. -/
theorem cmdCells_false_eq (ts : List (List Char)) :
    cmdCells false ts = (ts.map List.length).sum + ts.length := by
  induction ts with
  | nil => simp [cmdCells]
  | cons t ts ih =>
    simp only [cmdCells, List.map_cons, List.sum_cons, List.length_cons, ih]
    omega

/-- From the first token, cmdCells is the display length. -/
theorem cmdCells_true_eq (ts : List (List Char)) :
    cmdCells true ts = cmdDisplayLen ts := by
  cases ts with
  | nil => rfl
  | cons t ts =>
    simp only [cmdCells, cmdDisplayLen, List.map_cons, List.sum_cons,
      List.length_cons, cmdCells_false_eq]
    omega

/-- The cells written by one draw call. -/
theorem draw_writes_eq (ctx : RenderCtx) (st : DrawSt) (s : List Char) (sty : RStyle) :
    (draw ctx st s sty).writes = st.writes ++
      (s.take (ctx.area.width - st.x)).enum.map
        (fun p => ⟨ctx.area.left + st.x + p.1,
          if ctx.inverted then ctx.area.top + st.y
          else ctx.area.top + ctx.area.height - st.y - 1, p.2,
          if isSelectedRow ctx st then { sty with selBg := true } else sty⟩) := rfl

/-- One draw of a single character with room: exactly one cell is written,
    with the character and the bold flag of the requested style, and the
    cursor advances by one. -/
theorem draw_single_pairs (ctx : RenderCtx) (st : DrawSt) (c : Char) (sty : RStyle)
    (hx : st.x < ctx.area.width) :
    ∃ cell : Cell, (draw ctx st [c] sty).writes = st.writes ++ [cell] ∧
      cell.ch = c ∧ cell.style.bold = sty.bold ∧
      (draw ctx st [c] sty).x = st.x + 1 := by
  have ht : [c].take (ctx.area.width - st.x) = [c] :=
    List.take_of_length_le (by simp; omega)
  refine ⟨⟨ctx.area.left + st.x,
      if ctx.inverted then ctx.area.top + st.y
      else ctx.area.top + ctx.area.height - st.y - 1, c,
      if isSelectedRow ctx st then { sty with selBg := true } else sty⟩,
    ?_, rfl, ?_, ?_⟩
  · rw [draw_writes_eq, ht]
    simp [List.enum]
  · exact style_bold_if _ _
  · rw [draw_x_eq, ht]
    simp

/-- The command character loop under a fitting width: no early stop, the
    position advances by the byte length of the token, one cell is written
    per character, and the bold flags are exactly the byte-position lookups. -/
theorem cmdChars_run (ctx : RenderCtx) (hl : List Nat) (t : List Char) :
    ∀ st pos, st.x + t.length ≤ ctx.area.width →
      ∃ st2 nw, cmdChars ctx hl st pos t = (st2, pos + byteLen t, false) ∧
        st2.writes = st.writes ++ nw ∧
        nw.map (fun c => (c.ch, c.style.bold)) = tokFlags hl pos t ∧
        st2.x = st.x + t.length := by
  induction t with
  | nil =>
    intro st pos hfit
    refine ⟨st, [], ?_, by simp, rfl, by simp⟩
    show (st, pos, false) = (st, pos + byteLen [], false)
    simp [byteLen]
  | cons c cs ih =>
    intro st pos hfit
    have hlen : st.x + (cs.length + 1) ≤ ctx.area.width := by
      simpa [Nat.add_comm, Nat.add_assoc, Nat.add_left_comm] using hfit
    have hx : ¬ (st.x > ctx.area.width) := by omega
    obtain ⟨cell, hcw, hcch, hcbold, hcx⟩ := draw_single_pairs ctx st c
      ⟨some Meaning.Base, decide (pos ∈ hl), false⟩ (by omega)
    obtain ⟨st2, nw, h1, h2, h3, h4⟩ :=
      ih (draw ctx st [c] ⟨some Meaning.Base, decide (pos ∈ hl), false⟩)
        (pos + c.utf8Size) (by rw [hcx]; omega)
    refine ⟨st2, cell :: nw, ?_, ?_, ?_, ?_⟩
    · simp only [cmdChars, if_neg hx]
      rw [h1]
      simp only [byteLen, Prod.mk.injEq]
      refine ⟨trivial, by omega, trivial⟩
    · rw [h2, hcw]
      simp
    · simp only [List.map_cons, h3, tokFlags, hcch, hcbold]
    · rw [h4, hcx]
      simp only [List.length_cons]
      omega

/-- The command token loop under a fitting width: the cells written carry
    exactly the characters and bold flags of the byte-position walk. -/
theorem cmdTokens_run (ctx : RenderCtx) (hl : List Nat) (ts : List (List Char)) :
    ∀ st pos, st.x + cmdCells (decide (pos = 0)) ts ≤ ctx.area.width →
      ∃ nw, (cmdTokens ctx hl st pos ts).writes = st.writes ++ nw ∧
        nw.map (fun c => (c.ch, c.style.bold)) = specTokens hl pos ts := by
  induction ts with
  | nil =>
    intro st pos hfit
    exact ⟨[], by simp [cmdTokens], by simp [specTokens]⟩
  | cons t ts ih =>
    intro st pos hfit
    by_cases hp : pos = 0
    · rw [hp, decide_eq_true rfl] at hfit
      simp only [cmdCells] at hfit
      obtain ⟨st2, nwt, hC, hW, hM, hX⟩ := cmdChars_run ctx hl t st pos (by omega)
      obtain ⟨nw2, hW2, hM2⟩ := ih st2 (pos + byteLen t + 1)
        (by rw [decide_eq_false (by omega), hX]; omega)
      refine ⟨nwt ++ nw2, ?_, ?_⟩
      · simp only [cmdTokens, if_neg (show ¬ pos ≠ 0 by omega)]
        rw [hC]
        show (cmdTokens ctx hl st2 (pos + byteLen t + 1) ts).writes = _
        rw [hW2, hW, List.append_assoc]
      · simp only [List.map_append, hM, hM2, specTokens,
          if_neg (show ¬ pos ≠ 0 by omega), List.nil_append]
    · have hsep : st.x + (1 + t.length + cmdCells false ts) ≤ ctx.area.width := by
        rw [decide_eq_false hp] at hfit
        simpa [cmdCells] using hfit
      obtain ⟨sepcell, hsw, hsch, hsbold, hsx⟩ := draw_single_pairs ctx st ' '
        (themeStyle Meaning.Base) (by omega)
      obtain ⟨st2, nwt, hC, hW, hM, hX⟩ := cmdChars_run ctx hl t
        (draw ctx st [' '] (themeStyle Meaning.Base)) pos (by rw [hsx]; omega)
      obtain ⟨nw2, hW2, hM2⟩ := ih st2 (pos + byteLen t + 1)
        (by rw [decide_eq_false (by omega), hX, hsx]; omega)
      refine ⟨sepcell :: (nwt ++ nw2), ?_, ?_⟩
      · simp only [cmdTokens, if_pos hp]
        rw [hC]
        show (cmdTokens ctx hl st2 (pos + byteLen t + 1) ts).writes = _
        rw [hW2, hW, hsw]
        simp [List.append_assoc]
      · simp only [List.map_cons, List.map_append, hM, hM2, specTokens,
          if_pos hp, hsch, hsbold, List.singleton_append]
        rfl

/-- On a whitespace-free token the code flags coincide with the byte walk of
    the amended claim (no character is a separator space). -/
theorem tokFlags_eq_walk (hl : List Nat) :
    ∀ (t : List Char), (∀ c ∈ t, isAsciiWs c = false) →
      ∀ p, tokFlags hl p t = specWalkBytes hl p t := by
  intro t
  induction t with
  | nil => intro hns p; rfl
  | cons c cs ih =>
    intro hns p
    have hcw := hns c (List.mem_cons_self c cs)
    have hc : (c == ' ') = false := by
      simp only [isAsciiWs, Bool.or_eq_false_iff] at hcw
      exact hcw.1.1.1.1
    simp only [tokFlags, specWalkBytes, hc, Bool.not_false, Bool.and_true]
    rw [ih (fun x hx => hns x (List.mem_cons_of_mem c hx)) (p + c.utf8Size)]

/-- The byte walk distributes over append, advancing by the byte length. -/
theorem specWalkBytes_append (hl : List Nat) (ys : List Char) :
    ∀ (xs : List Char) (p : Nat),
      specWalkBytes hl p (xs ++ ys) =
        specWalkBytes hl p xs ++ specWalkBytes hl (p + byteLen xs) ys := by
  intro xs
  induction xs with
  | nil => intro p; simp [specWalkBytes, byteLen]
  | cons c cs ih =>
    intro p
    have h1 : specWalkBytes hl p ((c :: cs) ++ ys) =
        (c, decide (p ∈ hl) && !(c == ' ')) ::
          specWalkBytes hl (p + c.utf8Size) (cs ++ ys) := rfl
    have h2 : specWalkBytes hl p (c :: cs) =
        (c, decide (p ∈ hl) && !(c == ' ')) ::
          specWalkBytes hl (p + c.utf8Size) cs := rfl
    rw [h1, ih (p + c.utf8Size), h2, List.cons_append,
      show byteLen (c :: cs) = c.utf8Size + byteLen cs from rfl, Nat.add_assoc]

/-- One-step unfolding of specTokens. -/
theorem specTokens_cons (hl : List Nat) (p : Nat) (t : List Char)
    (ts : List (List Char)) :
    specTokens hl p (t :: ts) =
      (if p ≠ 0 then [(' ', false)] else []) ++
        (tokFlags hl p t ++ specTokens hl (p + byteLen t + 1) ts) := rfl

/-- The token walk equals the byte walk of the normalized command, up to a
    leading separator cell when the walk starts mid-command. -/
theorem specTokens_eq_walk (hl : List Nat) :
    ∀ (ts : List (List Char)) (p : Nat),
      (∀ t ∈ ts, ∀ c ∈ t, isAsciiWs c = false) →
      specTokens hl p ts =
        (if p ≠ 0 ∧ ts ≠ [] then [(' ', false)] else []) ++
          specWalkBytes hl p (normalizedCmd ts) := by
  intro ts
  induction ts with
  | nil => intro p hns; simp [specTokens, normalizedCmd, specWalkBytes]
  | cons t ts ih =>
    intro p hns
    have hnt : ∀ c ∈ t, isAsciiWs c = false := hns t (List.mem_cons_self t ts)
    have hnts : ∀ u ∈ ts, ∀ c ∈ u, isAsciiWs c = false :=
      fun u hu => hns u (List.mem_cons_of_mem t hu)
    cases ts with
    | nil =>
      rw [specTokens_cons, tokFlags_eq_walk hl t hnt p]
      show _ ++ (specWalkBytes hl p t ++ specTokens hl (p + byteLen t + 1) []) = _
      rw [show specTokens hl (p + byteLen t + 1) [] = [] from rfl]
      rw [show normalizedCmd [t] = t from rfl]
      by_cases hp : p ≠ 0
      · simp [hp]
      · simp [hp]
    | cons t2 ts2 =>
      rw [specTokens_cons, ih (p + byteLen t + 1) hnts, tokFlags_eq_walk hl t hnt p]
      rw [show normalizedCmd (t :: t2 :: ts2) = t ++ ' ' :: normalizedCmd (t2 :: ts2)
        from rfl]
      rw [specWalkBytes_append]
      rw [show specWalkBytes hl (p + byteLen t) (' ' :: normalizedCmd (t2 :: ts2)) =
        (' ', decide ((p + byteLen t) ∈ hl) && !((' ' : Char) == ' ')) ::
          specWalkBytes hl (p + byteLen t + (' ' : Char).utf8Size)
            (normalizedCmd (t2 :: ts2)) from rfl]
      rw [show ((' ' : Char) == ' ') = true from rfl, show (' ' : Char).utf8Size = 1 from rfl]
      simp only [Bool.not_true, Bool.and_false]
      by_cases hp : p ≠ 0
      · simp only [if_pos hp, ne_eq, List.cons_ne_nil, not_false_eq_true, and_true,
          if_pos (show p + byteLen t + 1 ≠ 0 by omega)]
        simp [List.append_assoc]
      · simp only [if_neg hp, ne_eq, List.cons_ne_nil, not_false_eq_true, and_true,
          if_pos (show p + byteLen t + 1 ≠ 0 by omega)]
        simp [List.append_assoc, hp]

/-- One-step unfolding of commandCol. -/
theorem commandCol_eq (ctx : RenderCtx) (st : DrawSt) (h : HistoryItem) :
    commandCol ctx st h =
      cmdTokens ctx
        (ctx.ext.highlight
          (normalizedCmd (splitAsciiWs (ctx.ext.escapeControl h.command))))
        st 0 (splitAsciiWs (ctx.ext.escapeControl h.command)) := rfl

/-- A concrete external set whose match engine returns offset 2, used by the
    C4 counterexample. -/
def extCex : Externals :=
  ⟨fun _ => "1s".data, fun _ => "t".data, fun s => s, fun _ => [2], 0⟩

/-- C4: the claim fails as stated. For the (already escaped) command with a
    two-byte character, tokens lambda and a, and match offsets {2}: counting
    positions in characters the claim demands the character a (offset 2 of
    the normalized command) be bold, but the code advances the counter by
    UTF-8 byte length, looks up byte offsets 0 and 3, and draws nothing
    bold. -/
theorem C4_counterexample :
    cmdRendered ⟨extCex, [], false, ⟨0, 0, 50, 1⟩, 0, 9⟩ ⟨0, 0, [], true⟩
        ⟨"λ a".data, 0, 0, 0, [], []⟩ =
      [('λ', false), (' ', false), ('a', false)] ∧
    specWalkChars [2] 0 (normalizedCmd (splitAsciiWs ("λ a".data))) =
      [('λ', false), (' ', false), ('a', true)] ∧
    cmdRendered ⟨extCex, [], false, ⟨0, 0, 50, 1⟩, 0, 9⟩ ⟨0, 0, [], true⟩
        ⟨"λ a".data, 0, 0, 0, [], []⟩ ≠
      specWalkChars [2] 0 (normalizedCmd (splitAsciiWs ("λ a".data))) := by
  refine ⟨?_, ?_, ?_⟩ <;> decide

/-- C4 amended: the running position counter advances through the normalized
    command by the UTF-8 byte length of each character, plus one per
    inter-token separator; when the command fits the remaining row width,
    the cells written are exactly the normalized characters in order, drawn
    bold precisely at the characters whose byte offsets are in the match set
    (separator spaces are never bold). -/
theorem C4_highlight_bytes (ctx : RenderCtx) (st : DrawSt) (h : HistoryItem)
    (hfit : st.x + cmdDisplayLen (splitAsciiWs (ctx.ext.escapeControl h.command)) ≤
      ctx.area.width) :
    cmdRendered ctx st h =
      specWalkBytes
        (ctx.ext.highlight
          (normalizedCmd (splitAsciiWs (ctx.ext.escapeControl h.command))))
        0 (normalizedCmd (splitAsciiWs (ctx.ext.escapeControl h.command))) := by
  obtain ⟨nw, hW, hM⟩ := cmdTokens_run ctx
    (ctx.ext.highlight
      (normalizedCmd (splitAsciiWs (ctx.ext.escapeControl h.command))))
    (splitAsciiWs (ctx.ext.escapeControl h.command)) st 0
    (show st.x + cmdCells true (splitAsciiWs (ctx.ext.escapeControl h.command)) ≤
        ctx.area.width by rw [cmdCells_true_eq]; exact hfit)
  rw [cmdRendered, commandCol_eq, hW, List.drop_left, hM]
  rw [specTokens_eq_walk _ _ 0 (splitAsciiWs_no_ws _)]
  simp

/-- A concrete external set whose match engine returns offsets 0 and 3, used
    by the C4 witness. -/
def extHl : Externals :=
  ⟨fun _ => "1s".data, fun _ => "t".data, fun s => s, fun _ => [0, 3], 0⟩

/-- C4 witness: command ab c with match byte offsets 0 and 3 in a wide row:
    a (offset 0) and c (offset 3) come out bold and nothing else. -/
theorem C4_highlight_bytes_witness :
    (0 + cmdDisplayLen (splitAsciiWs (extHl.escapeControl "ab c".data)) ≤ 50) ∧
    cmdRendered ⟨extHl, [], false, ⟨0, 0, 50, 1⟩, 0, 9⟩ ⟨0, 0, [], true⟩
        ⟨"ab c".data, 0, 0, 0, [], []⟩ =
      specWalkBytes
        (extHl.highlight
          (normalizedCmd (splitAsciiWs (extHl.escapeControl "ab c".data))))
        0 (normalizedCmd (splitAsciiWs (extHl.escapeControl "ab c".data))) :=
  ⟨by decide,
   C4_highlight_bytes ⟨extHl, [], false, ⟨0, 0, 50, 1⟩, 0, 9⟩ ⟨0, 0, [], true⟩
     ⟨"ab c".data, 0, 0, 0, [], []⟩ (by decide)⟩
